import Mathlib

/-!
Verification of the MongoDB Data Culpa connector (`mongo-dataculpa.py`).

The development shallowly embeds the incremental sync loop `FetchCollection`
(lines 498-602 of the source) and the `SessionHistory` checkpoint store
(lines 218-315).  BSON scalar values that the connector inspects are modelled
by the inductive `BValue`; a source document is an association list from field
names to values; the downstream Data Culpa client (`dc.queue_record`,
`dc.queue_commit`, `config.connect_controller`) is modelled by an explicit
event log inside the loop state, with the server's commit results supplied by
an external oracle function, since the connector only prints them.
-/

/-- A BSON scalar as the connector's runtime type checks see it:
`bson.ObjectId` (modelled as the embedded generation timestamp in seconds
plus the remaining counter bytes, compared lexicographically),
`datetime` (seconds since the epoch, UTC), `str`, and any other scalar
(modelled by an integer), matching the `isinstance` chain at lines 539-558. -/
inductive BValue where
  | objectId (ts : Nat) (rest : Nat)
  | datetime (secs : Nat)
  | str (s : String)
  | int (i : Int)
deriving DecidableEq, Repr

/-- A source document: an association list from field names to values.
A BSON `null` field is modelled as an absent key, matching pymongo's mapping
of BSON null to Python `None` combined with `dict.get`. -/
abbrev Record := List (String × BValue)

/-- `r.get(field)` of the Python dict: first binding of the key, `none` when
the key is absent. -/
def Record.get (r : Record) (k : String) : Option BValue :=
  (r.find? (fun e => e.1 == k)).map (fun e => e.2)

/-- BSON type rank used by MongoDB's cross-type comparison order
(numbers < strings < ObjectId < Date). -/
def typeRank : BValue → Nat
  | BValue.int _ => 1
  | BValue.str _ => 2
  | BValue.objectId _ _ => 3
  | BValue.datetime _ => 4

/-- MongoDB's `$gt` comparison on the modelled scalars: same-type values
compare by payload (ObjectId lexicographically, timestamp first), values of
different types compare by type rank. -/
def bsonLtB : BValue → BValue → Bool
  | BValue.int a, BValue.int b => decide (a < b)
  | BValue.str a, BValue.str b => decide (a < b)
  | BValue.objectId t1 r1, BValue.objectId t2 r2 =>
      decide (t1 < t2 ∨ (t1 = t2 ∧ r1 < r2))
  | BValue.datetime a, BValue.datetime b => decide (a < b)
  | a, b => decide (typeRank a < typeRank b)

/-- The timeshift field actually used by the query, per lines 516-517:
when `use_timeshift` is set and no `timeshift_field` is configured it
defaults to `"_id"`; otherwise it is the configured field, possibly absent. -/
def resolveTsField (useTs : Bool) (tfCfg : Option String) : Option String :=
  if useTs = true ∧ tfCfg = none then some "_id" else tfCfg

/-- The source query of lines 507-520: an optional `$gt` constraint taken
verbatim from the persisted marker pair, and an ascending sort on the
resolved timeshift field.  `none` when `collection.find` is never called. -/
structure SourceQuery where
  filterGt : Option (String × BValue)
  sortField : String
  sortAsc : Bool
deriving DecidableEq, Repr

/-- Build the query issued by `FetchCollection` (lines 507-520) from the
configuration and the persisted marker pair, or `none` when no query is
issued because `result` is never assigned. -/
def buildQuery (useTs : Bool) (tfCfg : Option String)
    (marker : Option (String × BValue)) : Option SourceQuery :=
  (resolveTsField useTs tfCfg).map
    (fun f => { filterGt := marker, sortField := f, sortAsc := true })

/-- Classification of the timeshift field's value by the `isinstance` chain
at lines 539-558: a `datetime` or an `ObjectId` yields the calendar day of
its (generation) time, a `str` is the fatal case of lines 550-554, and
anything else (including an absent field) leaves `this_date` as `None`. -/
inductive TsClass where
  | dated (day : Nat)
  | strCase (s : String)
  | undated
deriving DecidableEq, Repr

/-- Classify the value found at the timeshift field (lines 536-559). -/
def classifyTs : Option BValue → TsClass
  | some (BValue.datetime s) => TsClass.dated (s / 86400)
  | some (BValue.str s) => TsClass.strCase s
  | some (BValue.objectId t _) => TsClass.dated (t / 86400)
  | _ => TsClass.undated

/-- The ways a run of `FetchCollection` dies: `unboundResultVar` is the
`NameError` at line 530 when `result` was never assigned (line 519-520
guarded by a config—see lines 516-520), `stringTsField` is the
`os._exit(2)` at line 554, and `badDateCrash` is the `AttributeError` at
line 569 when `this_date` is `None`. -/
inductive RunError where
  | unboundResultVar
  | stringTsField
  | badDateCrash
deriving DecidableEq, Repr

/-- The loop-local variables of lines 525-528 together with the observable
effects on the downstream client: `openBatch` is the open session `dc` with
the records queued into it (`none` when `dc is None`), `opensAcc` records
each `connect_controller` call with its timeshift argument (`none` for the
plain call at line 581), `commitsAcc` the committed batches, `commitCount`
how many `queue_commit` calls have happened, `pushedAcc` every record passed
to `queue_record`. -/
structure LoopCore where
  last_id : Option BValue
  last_date : Option Nat
  record_count : Nat
  openBatch : Option (List Record)
  opensAcc : List (Option Int)
  commitsAcc : List (List Record)
  commitCount : Nat
  pushedAcc : List Record
deriving DecidableEq, Repr

/-- Loop state: the core variables plus the printed `server_result` lines. -/
structure LoopState where
  core : LoopCore
  logAcc : List String

/-- The state at line 525: everything empty, no session open. -/
def initState : LoopState :=
  { core := { last_id := none, last_date := none, record_count := 0,
              openBatch := none, opensAcc := [], commitsAcc := [],
              commitCount := 0, pushedAcc := [] },
    logAcc := [] }

/-- `dc.queue_commit()` followed by `dc = None` (lines 563-565 and 596-598):
the open batch is committed, the server's result (supplied by the oracle,
indexed by commit number) is printed, and the session handle is dropped. -/
def commitClose (oracle : Nat → String) (st : LoopState) : LoopState :=
  { core := { st.core with
      commitsAcc := st.core.commitsAcc ++ [st.core.openBatch.getD []]
      openBatch := none
      commitCount := st.core.commitCount + 1 }
    logAcc := st.logAcc ++ [oracle st.core.commitCount] }

/-- `dc.queue_record(r, ...)` at line 583: append the record to the open
batch and to the overall pushed list. -/
def queueRecord (st : LoopState) (r : Record) : LoopState :=
  { st with core := { st.core with
      openBatch := st.core.openBatch.map (fun b => b ++ [r])
      pushedAcc := st.core.pushedAcc ++ [r] } }

/-- Lines 561-583 after the field was classified as non-string:
close the session on a day boundary (lines 561-566), then reopen it with the
timeshift of the current day if no session is open (lines 568-574, crashing
on `this_date.year` when the day is `None`), record the new `last_date`
(line 577) and queue the record (line 583). -/
def afterClassify (oracle : Nat → String) (now : Nat) (st : LoopState)
    (r : Record) (this_date : Option Nat) :
    Except (LoopState × RunError) LoopState :=
  let st1 := if st.core.last_date ≠ none ∧ this_date ≠ st.core.last_date then
      commitClose oracle st
    else st
  match st1.core.openBatch, this_date with
  | none, none => Except.error (st1, RunError.badDateCrash)
  | none, some d =>
      let st2 : LoopState := { st1 with core := { st1.core with
          openBatch := some []
          opensAcc := st1.core.opensAcc ++ [some ((now : Int) - (d : Int) * 86400)] } }
      Except.ok (queueRecord { st2 with core := { st2.core with last_date := this_date } } r)
  | some _, _ =>
      Except.ok (queueRecord { st1 with core := { st1.core with last_date := this_date } } r)

/-- Lines 580-583 when `use_timeshift` is false: open a plain session if
none is open, then queue the record. -/
def plainStep (st : LoopState) (r : Record) : LoopState :=
  let st1 := if st.core.openBatch = none then
      { st with core := { st.core with
          openBatch := some []
          opensAcc := st.core.opensAcc ++ [(none : Option Int)] } }
    else st
  queueRecord st1 r

/-- One iteration of the `for r in result` loop (lines 530-583): remember
the first record's `_id` (lines 531-532), bump the count, and either run the
timeshift classification (lines 535-578) or push plainly. -/
def step (useTs : Bool) (f : String) (now : Nat) (oracle : Nat → String)
    (st : LoopState) (r : Record) : Except (LoopState × RunError) LoopState :=
  let st0 : LoopState := { st with core := { st.core with
      last_id := if st.core.record_count = 0 then Record.get r "_id" else st.core.last_id
      record_count := st.core.record_count + 1 } }
  if useTs then
    match classifyTs (Record.get r f) with
    | TsClass.strCase _ => Except.error (st0, RunError.stringTsField)
    | TsClass.dated d => afterClassify oracle now st0 r (some d)
    | TsClass.undated => afterClassify oracle now st0 r none
  else
    Except.ok (plainStep st0 r)

/-- The whole record loop: threads the state through `step`, stopping with
the partial state when an iteration aborts the process. -/
def runRecords (useTs : Bool) (f : String) (now : Nat) (oracle : Nat → String) :
    List Record → LoopState → LoopState × Option RunError
  | [], st => (st, none)
  | r :: rs, st =>
    match step useTs f now oracle st r with
    | Except.ok st' => runRecords useTs f now oracle rs st'
    | Except.error (st', e) => (st', some e)

/-- Everything observable about one run of `FetchCollection`. -/
structure RunOutcome where
  pushed : List Record
  commits : List (List Record)
  opens : List (Option Int)
  savedMarker : Option (String × BValue)
  serverLog : List String
  err : Option RunError
deriving Repr

/-- One run of `FetchCollection` (lines 498-602) on the records the source
returned for its query.  When the timeshift field resolves to nothing the
loop hits the unassigned `result` variable (lines 519-530).  Otherwise the
loop runs; on normal completion the watermark is persisted as
`("_id", last_id)` when at least one record was seen (lines 587-589) and an
open session gets its final commit (lines 596-598).  A process abort keeps
the effects made so far and persists nothing. -/
def FetchCollection (useTs : Bool) (tfCfg : Option String)
    (records : List Record) (now : Nat) (oracle : Nat → String) : RunOutcome :=
  match resolveTsField useTs tfCfg with
  | none =>
      { pushed := [], commits := [], opens := [], savedMarker := none,
        serverLog := [], err := some RunError.unboundResultVar }
  | some f =>
      match runRecords useTs f now oracle records initState with
      | (st, some e) =>
          { pushed := st.core.pushedAcc, commits := st.core.commitsAcc,
            opens := st.core.opensAcc, savedMarker := none,
            serverLog := st.logAcc, err := some e }
      | (st, none) =>
          let saved := st.core.last_id.map (fun v => ("_id", v))
          match st.core.openBatch with
          | some b =>
              { pushed := st.core.pushedAcc, commits := st.core.commitsAcc ++ [b],
                opens := st.core.opensAcc, savedMarker := saved,
                serverLog := st.logAcc ++ [oracle st.core.commitCount], err := none }
          | none =>
              { pushed := st.core.pushedAcc, commits := st.core.commitsAcc,
                opens := st.core.opensAcc, savedMarker := saved,
                serverLog := st.logAcc, err := none }

/-- Effect of a run on the persisted watermark of the stream: `add_history`
plus `save` overwrite it when the run saved one (lines 587-589), otherwise
the store is untouched. -/
def applyRun (marker : Option (String × BValue)) (out : RunOutcome) :
    Option (String × BValue) :=
  match out.savedMarker with
  | some m => some m
  | none => marker

/-- The watermark update rule across a sequence of runs of one stream. -/
def nextMarker (useTs : Bool) (tfCfg : Option String) (now : Nat)
    (oracle : Nat → String) (marker : Option (String × BValue))
    (records : List Record) : Option (String × BValue) :=
  applyRun marker (FetchCollection useTs tfCfg records now oracle)

/-- The persisted watermark before each run and after the last of a
sequence of runs (each element of `runs` being what the source returned). -/
def runsMarkers (useTs : Bool) (tfCfg : Option String) (now : Nat)
    (oracle : Nat → String) (m0 : Option (String × BValue))
    (runs : List (List Record)) : List (Option (String × BValue)) :=
  List.scanl (nextMarker useTs tfCfg now oracle) m0 runs

/-- The records returned by the source respect the `$gt` filter built from
the current marker (no constraint when there is no marker). -/
def filterHolds (marker : Option (String × BValue)) (records : List Record) : Prop :=
  ∀ r ∈ records, ∀ fk fv, marker = some (fk, fv) →
    ∃ v, Record.get r fk = some v ∧ bsonLtB fv v = true

/-- Every run of the source honoured the filter of the marker current at
its start. -/
inductive SourceHonest (useTs : Bool) (tfCfg : Option String) (now : Nat)
    (oracle : Nat → String) : Option (String × BValue) → List (List Record) → Prop where
  | nil (m : Option (String × BValue)) : SourceHonest useTs tfCfg now oracle m []
  | cons (m : Option (String × BValue)) (recs : List Record)
      (rest : List (List Record)) :
      filterHolds m recs →
      SourceHonest useTs tfCfg now oracle
        (nextMarker useTs tfCfg now oracle m recs) rest →
      SourceHonest useTs tfCfg now oracle m (recs :: rest)

/-- Comparison of successive persisted watermarks: anything follows an
absent one, a present one never becomes absent, and a present one must keep
its field name and not decrease per the BSON comparison of its value. -/
def markerLe : Option (String × BValue) → Option (String × BValue) → Prop
  | none, _ => True
  | some _, none => False
  | some (fk, v), some (fk', v') => fk' = fk ∧ (bsonLtB v v' = true ∨ v' = v)

/-- The marker shape this engine itself ever persists: absent, or keyed by
the `"_id"` field (line 588). -/
def markerIdShaped : Option (String × BValue) → Prop
  | none => True
  | some (fk, _) => fk = "_id"

/-- Serialization of a field value as `pickle.dumps` produces it
(line 287): a byte stream that records the value's constructor tag and its
payload, so deserialization never guesses the type. -/
def pickleDumps : BValue → List Nat
  | BValue.objectId t r => [0, t, r]
  | BValue.datetime s => [1, s]
  | BValue.str s => 2 :: s.toList.map Char.toNat
  | BValue.int i => if i < 0 then [3, 1, i.natAbs] else [3, 0, i.toNat]

/-- Deserialization as `pickle.loads` (line 312): reads the tag back;
`none` models the exception on a stream no `dumps` produced. -/
def pickleLoads : List Nat → Option BValue
  | [0, t, r] => some (BValue.objectId t r)
  | [1, s] => some (BValue.datetime s)
  | 2 :: cs => some (BValue.str (String.mk (cs.map Char.ofNat)))
  | [3, 0, m] => some (BValue.int (m : Int))
  | [3, 1, m] => some (BValue.int (-(m : Int)))
  | _ => none

/-- The in-memory `SessionHistory.history` dict: stream name to
(field name, field value), insertion ordered. -/
abbrev HistMap := List (String × String × BValue)

/-- `self.history[table_name] = (field, value)` (line 229): replace every
binding of the key in place, or append a new one. -/
def histPut (h : HistMap) (k fn : String) (fv : BValue) : HistMap :=
  if h.any (fun e => e.1 == k) then
    h.map (fun e => if e.1 == k then (k, fn, fv) else e)
  else h ++ [(k, fn, fv)]

/-- `self.history.get(table_name)` (line 236). -/
def histGet (h : HistMap) (k : String) : Option (String × BValue) :=
  (h.find? (fun e => e.1 == k)).map (fun e => e.2)

/-- A row of the sqlite `cache` table: `(object_name, field_name,
pickled field_value)`, with `object_name` declared unique (line 253). -/
abbrev CacheDB := List (String × String × List Nat)

/-- `insert or replace into cache` (lines 290-291) against a table whose
`object_name` column is unique: replace every row of the key, else append. -/
def dbPut (rows : CacheDB) (k fn : String) (blob : List Nat) : CacheDB :=
  if rows.any (fun e => e.1 == k) then
    rows.map (fun e => if e.1 == k then (k, fn, blob) else e)
  else rows ++ [(k, fn, blob)]

/-- `SessionHistory.save` (lines 276-295): pickle each history entry's value
and upsert it into the cache table. -/
def saveHistory (h : HistMap) (rows : CacheDB) : CacheDB :=
  h.foldl (fun rs e => dbPut rs e.1 e.2.1 (pickleDumps e.2.2)) rows

/-- `SessionHistory.load` into a fresh process (lines 297-315): walk every
cache row, unpickle the value and `add_history` it; `none` when an
unpicklable blob raises. -/
def loadHistory (rows : CacheDB) : Option HistMap :=
  rows.foldlM (fun h e => (pickleLoads e.2.2).map (fun fv => histPut h e.1 e.2.1 fv)) []

/-- Modelled from the spec, for comparison with `buildQuery`: the claim's
reading of "requested in ascending order by the watermark field", namely
that when a persisted watermark `(fieldName, fieldValue)` exists the issued
query's ascending sort is on that same `fieldName`. -/
def sortedByMarkerField (useTs : Bool) (tfCfg : Option String)
    (marker : Option (String × BValue)) : Prop :=
  ∀ q fk fv, buildQuery useTs tfCfg marker = some q →
    marker = some (fk, fv) → q.sortField = fk

/-- The state an iteration leaves behind, whether it completed or aborted. -/
def outState : Except (LoopState × RunError) LoopState → LoopState
  | Except.ok st => st
  | Except.error (st, _) => st

theorem resolveTsField_true (t : Option String) :
    resolveTsField true t = some (t.getD "_id") := by
  cases t <;> rfl

theorem commitClose_openBatch (o : Nat → String) (st : LoopState) :
    (commitClose o st).core.openBatch = none := rfl

theorem commitClose_last_id (o : Nat → String) (st : LoopState) :
    (commitClose o st).core.last_id = st.core.last_id := rfl

theorem queueRecord_last_id (st : LoopState) (r : Record) :
    (queueRecord st r).core.last_id = st.core.last_id := rfl

theorem afterClassify_last_id (o : Nat → String) (now : Nat) (st : LoopState)
    (r : Record) (td : Option Nat) :
    (outState (afterClassify o now st r td)).core.last_id = st.core.last_id := by
  unfold afterClassify
  by_cases hb : (st.core.last_date ≠ none ∧ td ≠ st.core.last_date)
  · simp only [if_pos hb]
    cases td <;> simp [commitClose, queueRecord, outState]
  · simp only [if_neg hb]
    cases hO : st.core.openBatch <;> cases td <;>
      simp [queueRecord, outState, hO]

theorem step_last_id (u : Bool) (f : String) (now : Nat) (o : Nat → String)
    (st : LoopState) (r : Record) :
    (outState (step u f now o st r)).core.last_id =
      (if st.core.record_count = 0 then Record.get r "_id" else st.core.last_id) := by
  unfold step
  cases u
  · simp only [Bool.false_eq_true, if_false]
    simp [plainStep, queueRecord, outState]
    split <;> rfl
  · simp only [if_true]
    cases hc : classifyTs (Record.get r f) <;> simp only [hc]
    · rw [afterClassify_last_id]
    · simp [outState]
    · rw [afterClassify_last_id]

theorem runRecords_last_id (u : Bool) (f : String) (now : Nat) (o : Nat → String) :
    ∀ (recs : List Record) (st : LoopState),
      (runRecords u f now o recs st).1.core.last_id = st.core.last_id ∨
      ∃ r ∈ recs, (runRecords u f now o recs st).1.core.last_id = Record.get r "_id"
  | [], st => Or.inl rfl
  | r :: rs, st => by
    have hs := step_last_id u f now o st r
    unfold runRecords
    cases hstep : step u f now o st r with
    | ok st' =>
      rw [hstep] at hs
      simp only [outState] at hs
      rcases runRecords_last_id u f now o rs st' with h | ⟨r', hr', h⟩
      · rw [h, hs]
        by_cases hz : st.core.record_count = 0
        · rw [if_pos hz]
          exact Or.inr ⟨r, List.mem_cons_self r rs, rfl⟩
        · rw [if_neg hz]
          exact Or.inl rfl
      · exact Or.inr ⟨r', List.mem_cons_of_mem r hr', h⟩
    | error p =>
      obtain ⟨st', e⟩ := p
      rw [hstep] at hs
      simp only [outState] at hs
      simp only [hs]
      by_cases hz : st.core.record_count = 0
      · rw [if_pos hz]
        exact Or.inr ⟨r, List.mem_cons_self r rs, rfl⟩
      · rw [if_neg hz]
        exact Or.inl rfl

theorem savedMarker_spec (u : Bool) (t : Option String) (recs : List Record)
    (now : Nat) (o : Nat → String) (fn : String) (w : BValue)
    (h : (FetchCollection u t recs now o).savedMarker = some (fn, w)) :
    fn = "_id" ∧ ∃ r ∈ recs, Record.get r "_id" = some w := by
  unfold FetchCollection at h
  split at h
  · exact absurd h (by simp)
  · rename_i f hf
    split at h
    · exact absurd h (by simp)
    · rename_i st hrr
      have hsv : st.core.last_id.map (fun v => (("_id" : String), v)) = some (fn, w) := by
        cases hOB : st.core.openBatch <;> simp only [hOB] at h <;> exact h
      rcases Option.map_eq_some'.mp hsv with ⟨v, hv, hpair⟩
      have hfn : fn = "_id" := (Prod.mk.injEq _ _ _ _).mp hpair.symm |>.1
      have hw : v = w := (Prod.mk.injEq _ _ _ _).mp hpair |>.2
      refine ⟨hfn, ?_⟩
      rcases runRecords_last_id u f now o recs initState with hl | ⟨r, hr, hl⟩
      · rw [hrr] at hl
        simp only [initState] at hl
        rw [hl] at hv
        exact absurd hv (by simp)
      · rw [hrr] at hl
        exact ⟨r, hr, by rw [← hl, hv, hw]⟩

/-- Claim C10 — every watermark the engine persists is keyed by the field
name `"_id"` and its value is taken from some returned record's `"_id"`
field, whatever timeshift configuration was used for filtering, sorting and
bucketing. -/
theorem C10_persists_id_field (useTs : Bool) (tfCfg : Option String)
    (records : List Record) (now : Nat) (oracle : Nat → String)
    (fn : String) (v : BValue)
    (h : (FetchCollection useTs tfCfg records now oracle).savedMarker = some (fn, v)) :
    fn = "_id" ∧ ∃ r ∈ records, Record.get r "_id" = some v :=
  savedMarker_spec useTs tfCfg records now oracle fn v h

/-- Witness for C10 at a concrete run of one record. -/
theorem C10_persists_id_field_witness :
    ("_id" : String) = "_id" ∧
    ∃ r ∈ [[(("_id" : String), BValue.int 7)]], Record.get r "_id" = some (BValue.int 7) :=
  C10_persists_id_field false (some "x") [[("_id", BValue.int 7)]] 0 (fun _ => "")
    "_id" (BValue.int 7) (by decide)

/-- Claim C1 — evaluation of the code at the failing input: a first run
(no persisted watermark) over two well-formed records with ObjectId `_id`
values persists the FIRST record's `_id`, not the last one's, because
`last_id` is assigned only when `record_count == 0` (lines 531-532). -/
theorem C1_code_persists_first :
    (FetchCollection true none
      [[(("_id" : String), BValue.objectId 100 1)],
       [(("_id" : String), BValue.objectId 200 2)]]
      1000000 (fun _ => "ok")).savedMarker = some ("_id", BValue.objectId 100 1) ∧
    (FetchCollection true none
      [[(("_id" : String), BValue.objectId 100 1)],
       [(("_id" : String), BValue.objectId 200 2)]]
      1000000 (fun _ => "ok")).savedMarker ≠ some ("_id", BValue.objectId 200 2) := by
  constructor <;> decide

/-- Claim C5 — a run over zero returned records (whenever the query is
actually issued) pushes nothing, commits nothing and does not touch the
persisted watermark. -/
theorem C5_empty_run (useTs : Bool) (tfCfg : Option String) (now : Nat)
    (oracle : Nat → String) (h : useTs = true ∨ tfCfg ≠ none) :
    FetchCollection useTs tfCfg [] now oracle =
      { pushed := [], commits := [], opens := [], savedMarker := none,
        serverLog := [], err := none } ∧
    ∀ marker, applyRun marker (FetchCollection useTs tfCfg [] now oracle) = marker := by
  have hout : FetchCollection useTs tfCfg [] now oracle =
      { pushed := [], commits := [], opens := [], savedMarker := none,
        serverLog := [], err := none } := by
    rcases h with h | h
    · subst h
      cases tfCfg <;> rfl
    · cases tfCfg with
      | none => exact absurd rfl h
      | some f => cases useTs <;> rfl
  refine ⟨hout, fun marker => ?_⟩
  rw [hout]
  rfl

/-- Witness for C5 at a concrete configuration. -/
theorem C5_empty_run_witness :
    (FetchCollection true none [] 0 (fun _ => "") =
      { pushed := [], commits := [], opens := [], savedMarker := none,
        serverLog := [], err := none }) ∧
    applyRun (some ("_id", BValue.int 5)) (FetchCollection true none [] 0 (fun _ => "")) =
      some ("_id", BValue.int 5) :=
  have hc := C5_empty_run true none 0 (fun _ => "") (Or.inl rfl)
  ⟨hc.1, hc.2 (some ("_id", BValue.int 5))⟩

theorem step_string (f : String) (now : Nat) (o : Nat → String) (st : LoopState)
    (r : Record) (s : String)
    (hs : classifyTs (Record.get r f) = TsClass.strCase s) :
    step true f now o st r = Except.error
      ({ st with core := { st.core with
          last_id := if st.core.record_count = 0 then Record.get r "_id" else st.core.last_id
          record_count := st.core.record_count + 1 } }, RunError.stringTsField) := by
  unfold step
  rw [hs]
  rfl

theorem step_dated (f : String) (now : Nat) (o : Nat → String) (st : LoopState)
    (r : Record) (d : Nat)
    (hc : classifyTs (Record.get r f) = TsClass.dated d) :
    step true f now o st r = afterClassify o now
      ({ st with core := { st.core with
          last_id := if st.core.record_count = 0 then Record.get r "_id" else st.core.last_id
          record_count := st.core.record_count + 1 } }) r (some d) := by
  unfold step
  rw [hc]
  rfl

theorem step_undated (f : String) (now : Nat) (o : Nat → String) (st : LoopState)
    (r : Record)
    (hc : classifyTs (Record.get r f) = TsClass.undated) :
    step true f now o st r = afterClassify o now
      ({ st with core := { st.core with
          last_id := if st.core.record_count = 0 then Record.get r "_id" else st.core.last_id
          record_count := st.core.record_count + 1 } }) r none := by
  unfold step
  rw [hc]
  rfl

theorem afterClassify_err (o : Nat → String) (now : Nat) (st st' : LoopState)
    (r : Record) (td : Option Nat) (e : RunError)
    (h : afterClassify o now st r td = Except.error (st', e)) :
    e = RunError.badDateCrash := by
  unfold afterClassify at h
  by_cases hb : st.core.last_date ≠ none ∧ td ≠ st.core.last_date
  · rw [if_pos hb] at h
    simp only [commitClose_openBatch] at h
    cases td with
    | none =>
      simp at h
      exact h.2.symm
    | some d => simp at h
  · rw [if_neg hb] at h
    dsimp only at h
    cases hOB : st.core.openBatch with
    | none =>
      rw [hOB] at h
      cases td with
      | none =>
        simp at h
        exact h.2.symm
      | some d => simp at h
    | some b =>
      rw [hOB] at h
      cases td <;> simp at h

theorem step_err_cases (u : Bool) (f : String) (now : Nat) (o : Nat → String)
    (st st' : LoopState) (r : Record) (e : RunError)
    (h : step u f now o st r = Except.error (st', e)) :
    e = RunError.stringTsField ∨ e = RunError.badDateCrash := by
  cases u with
  | false =>
    unfold step at h
    simp at h
  | true =>
    cases hc : classifyTs (Record.get r f)
    · rw [step_dated f now o st r _ hc] at h
      exact Or.inr (afterClassify_err _ _ _ _ _ _ _ h)
    · rw [step_string f now o st r _ hc] at h
      simp only [Except.error.injEq, Prod.mk.injEq] at h
      exact Or.inl h.2.symm
    · rw [step_undated f now o st r hc] at h
      exact Or.inr (afterClassify_err _ _ _ _ _ _ _ h)

theorem runRecords_err_cases (u : Bool) (f : String) (now : Nat) (o : Nat → String) :
    ∀ (recs : List Record) (st : LoopState) (e : RunError),
      (runRecords u f now o recs st).2 = some e →
      e = RunError.stringTsField ∨ e = RunError.badDateCrash
  | [], st, e, h => by simp [runRecords] at h
  | r :: rs, st, e, h => by
    unfold runRecords at h
    cases hstep : step u f now o st r with
    | ok st' =>
      rw [hstep] at h
      exact runRecords_err_cases u f now o rs st' e h
    | error p =>
      obtain ⟨st', e'⟩ := p
      rw [hstep] at h
      simp only [Option.some.injEq] at h
      rw [← h]
      exact step_err_cases u f now o st st' r e' hstep

theorem fetch_err_not_unbound (u : Bool) (t : Option String) (recs : List Record)
    (now : Nat) (o : Nat → String) (f : String)
    (hf : resolveTsField u t = some f) :
    (FetchCollection u t recs now o).err ≠ some RunError.unboundResultVar := by
  unfold FetchCollection
  intro h
  split at h
  · rename_i hf2
    rw [hf] at hf2
    exact Option.noConfusion hf2
  · rename_i f2 hf2
    split at h
    · rename_i st e hrr
      simp only [Option.some.injEq] at h
      rcases runRecords_err_cases u f2 now o recs initState e (by rw [hrr]) with he | he <;>
        simp [he] at h
    · rename_i st hrr
      cases hOB : st.core.openBatch <;> simp only [hOB] at h <;> simp at h

/-- Claim C9 — a run with `use_timeshift` false and no configured
`timeshift_field` reaches the loop with the query-result variable never
assigned and dies there, before any record is pushed, any session opened or
the watermark touched; and this unbound-variable failure happens in exactly
that configuration. -/
theorem C9_unbound_result :
    (∀ (records : List Record) (now : Nat) (oracle : Nat → String),
      FetchCollection false none records now oracle =
        { pushed := [], commits := [], opens := [], savedMarker := none,
          serverLog := [], err := some RunError.unboundResultVar }) ∧
    (∀ (useTs : Bool) (tfCfg : Option String) (records : List Record)
        (now : Nat) (oracle : Nat → String),
      (FetchCollection useTs tfCfg records now oracle).err =
          some RunError.unboundResultVar ↔ useTs = false ∧ tfCfg = none) := by
  constructor
  · intro records now oracle
    rfl
  · intro useTs tfCfg records now oracle
    constructor
    · intro h
      cases useTs <;> cases tfCfg
      · exact ⟨rfl, rfl⟩
      · exact absurd h (fetch_err_not_unbound _ _ _ _ _ _ rfl)
      · exact absurd h (fetch_err_not_unbound _ _ _ _ _ _ rfl)
      · exact absurd h (fetch_err_not_unbound _ _ _ _ _ _ rfl)
    · rintro ⟨hu, ht⟩
      subst hu
      subst ht
      rfl

/-- Claim C7, counterexample — with a configured timeshift field
`"created_at"` and a persisted watermark keyed by `"_id"` (the only key this
engine ever persists), the issued query's ascending sort is on
`"created_at"`, not on the persisted watermark's field name, so the claim's
"ordered ascending by the watermark field" fails as stated. -/
theorem C7_counterexample :
    ¬ sortedByMarkerField true (some "created_at") (some ("_id", BValue.int 3)) := by
  intro h
  have h2 := h { filterGt := some ("_id", BValue.int 3),
                 sortField := "created_at", sortAsc := true }
    "_id" (BValue.int 3) rfl rfl
  exact absurd h2 (by decide)

/-- Claim C7, amended — whenever a query is issued, its filter is the
persisted `(fieldName, fieldValue)` pair as a greater-than constraint (no
constraint when no watermark is persisted) and its sort is ascending on the
configured timeshift field — `"_id"` only in the default configuration —
which need not coincide with the persisted watermark's field name. -/
theorem C7_amended (useTs : Bool) (tfCfg : Option String)
    (marker : Option (String × BValue)) (q : SourceQuery)
    (h : buildQuery useTs tfCfg marker = some q) :
    q.filterGt = marker ∧ q.sortAsc = true ∧
      (tfCfg = some q.sortField ∨
        (useTs = true ∧ tfCfg = none ∧ q.sortField = "_id")) := by
  cases useTs <;> cases tfCfg <;>
    simp only [buildQuery, resolveTsField] at h
  · simp at h
  · rename_i f
    simp at h
    subst h
    exact ⟨rfl, rfl, Or.inl rfl⟩
  · simp at h
    subst h
    exact ⟨rfl, rfl, Or.inr ⟨rfl, rfl, rfl⟩⟩
  · rename_i f
    simp at h
    subst h
    exact ⟨rfl, rfl, Or.inl rfl⟩

/-- Witness for the amended C7 at the default configuration. -/
theorem C7_amended_witness :
    ({ filterGt := some ("_id", BValue.int 3), sortField := "_id",
       sortAsc := true } : SourceQuery).filterGt = some ("_id", BValue.int 3) ∧
    ({ filterGt := some ("_id", BValue.int 3), sortField := "_id",
       sortAsc := true } : SourceQuery).sortAsc = true ∧
    ((none : Option String) = some "_id" ∨
      (true = true ∧ (none : Option String) = none ∧
        ({ filterGt := some ("_id", BValue.int 3), sortField := "_id",
           sortAsc := true } : SourceQuery).sortField = "_id")) :=
  C7_amended true none (some ("_id", BValue.int 3))
    { filterGt := some ("_id", BValue.int 3), sortField := "_id", sortAsc := true }
    (by decide)

theorem afterClassify_dated_ok (o : Nat → String) (now : Nat) (st : LoopState)
    (r : Record) (d : Nat) :
    ∃ st', afterClassify o now st r (some d) = Except.ok st' ∧
      st'.core.pushedAcc = st.core.pushedAcc ++ [r] := by
  unfold afterClassify
  by_cases hb : st.core.last_date ≠ none ∧ (some d : Option Nat) ≠ st.core.last_date
  · rw [if_pos hb]
    simp only [commitClose_openBatch]
    exact ⟨_, rfl, by simp [queueRecord, commitClose]⟩
  · rw [if_neg hb]
    dsimp only
    cases hOB : st.core.openBatch with
    | none => exact ⟨_, rfl, by simp [queueRecord]⟩
    | some b => exact ⟨_, rfl, by simp [queueRecord]⟩

theorem step_dated_ok (f : String) (now : Nat) (o : Nat → String) (st : LoopState)
    (r : Record) (d : Nat)
    (hc : classifyTs (Record.get r f) = TsClass.dated d) :
    ∃ st', step true f now o st r = Except.ok st' ∧
      st'.core.pushedAcc = st.core.pushedAcc ++ [r] := by
  rw [step_dated f now o st r d hc]
  obtain ⟨st', h1, h2⟩ := afterClassify_dated_ok o now
    ({ st with core := { st.core with
        last_id := if st.core.record_count = 0 then Record.get r "_id" else st.core.last_id
        record_count := st.core.record_count + 1 } }) r d
  exact ⟨st', h1, h2⟩

theorem runRecords_dated (f : String) (now : Nat) (o : Nat → String) :
    ∀ (pre : List Record) (st : LoopState),
      (∀ r ∈ pre, ∃ d, classifyTs (Record.get r f) = TsClass.dated d) →
      ∃ st', runRecords true f now o pre st = (st', none) ∧
        st'.core.pushedAcc = st.core.pushedAcc ++ pre
  | [], st, _ => ⟨st, rfl, by simp⟩
  | r :: rest, st, h => by
    obtain ⟨d, hc⟩ := h r (List.mem_cons_self r rest)
    obtain ⟨st1, hstep, hpush⟩ := step_dated_ok f now o st r d hc
    obtain ⟨st', hrun, hpush'⟩ := runRecords_dated f now o rest st1
      (fun r' hr' => h r' (List.mem_cons_of_mem r hr'))
    refine ⟨st', ?_, ?_⟩
    · unfold runRecords
      rw [hstep]
      exact hrun
    · rw [hpush', hpush]
      simp

theorem runRecords_cons (u : Bool) (f : String) (now : Nat) (o : Nat → String)
    (r : Record) (rs : List Record) (st : LoopState) :
    runRecords u f now o (r :: rs) st =
      (match step u f now o st r with
       | Except.ok st' => runRecords u f now o rs st'
       | Except.error (st', e) => (st', some e)) := rfl

theorem runRecords_append_ok (u : Bool) (f : String) (now : Nat) (o : Nat → String) :
    ∀ (l1 l2 : List Record) (st st1 : LoopState),
      runRecords u f now o l1 st = (st1, none) →
      runRecords u f now o (l1 ++ l2) st = runRecords u f now o l2 st1
  | [], l2, st, st1, hmid => by
    simp only [runRecords, Prod.mk.injEq] at hmid
    rw [List.nil_append, hmid.1]
  | r :: rest, l2, st, st1, hmid => by
    rw [runRecords_cons] at hmid
    rw [List.cons_append, runRecords_cons]
    cases hstep : step u f now o st r with
    | ok st' =>
      rw [hstep] at hmid
      exact runRecords_append_ok u f now o rest l2 st' st1 hmid
    | error p =>
      obtain ⟨st', e⟩ := p
      rw [hstep] at hmid
      simp at hmid

theorem fetch_of_err (u : Bool) (t : Option String) (recs : List Record)
    (now : Nat) (o : Nat → String) (f : String) (st : LoopState) (e : RunError)
    (hf : resolveTsField u t = some f)
    (hrr : runRecords u f now o recs initState = (st, some e)) :
    FetchCollection u t recs now o =
      { pushed := st.core.pushedAcc, commits := st.core.commitsAcc,
        opens := st.core.opensAcc, savedMarker := none,
        serverLog := st.logAcc, err := some e } := by
  unfold FetchCollection
  rw [hf]
  dsimp only
  rw [hrr]

theorem fetch_of_ok_open (u : Bool) (t : Option String) (recs : List Record)
    (now : Nat) (o : Nat → String) (f : String) (st : LoopState) (b : List Record)
    (hf : resolveTsField u t = some f)
    (hrr : runRecords u f now o recs initState = (st, none))
    (hOB : st.core.openBatch = some b) :
    FetchCollection u t recs now o =
      { pushed := st.core.pushedAcc, commits := st.core.commitsAcc ++ [b],
        opens := st.core.opensAcc,
        savedMarker := st.core.last_id.map (fun v => ("_id", v)),
        serverLog := st.logAcc ++ [o st.core.commitCount], err := none } := by
  unfold FetchCollection
  rw [hf]
  dsimp only
  rw [hrr]
  dsimp only
  rw [hOB]

theorem fetch_of_ok_closed (u : Bool) (t : Option String) (recs : List Record)
    (now : Nat) (o : Nat → String) (f : String) (st : LoopState)
    (hf : resolveTsField u t = some f)
    (hrr : runRecords u f now o recs initState = (st, none))
    (hOB : st.core.openBatch = none) :
    FetchCollection u t recs now o =
      { pushed := st.core.pushedAcc, commits := st.core.commitsAcc,
        opens := st.core.opensAcc,
        savedMarker := st.core.last_id.map (fun v => ("_id", v)),
        serverLog := st.logAcc, err := none } := by
  unfold FetchCollection
  rw [hf]
  dsimp only
  rw [hrr]
  dsimp only
  rw [hOB]

/-- Claim C2 — when timeshift processing is active and some record's
timeshift (watermark) field resolves to a string, the run dies at the first
such record via the `os._exit(2)` of line 554: exactly the well-formed
records before it were pushed, the string record and everything after it
are not, and the stream's persisted watermark is left exactly as it was
before the run. -/
theorem C2_string_abort (tfCfg : Option String) (now : Nat) (oracle : Nat → String)
    (pre post : List Record) (rs : Record) (sv : String)
    (marker : Option (String × BValue))
    (hpre : ∀ r ∈ pre, ∃ d, classifyTs (Record.get r (tfCfg.getD "_id")) = TsClass.dated d)
    (hs : Record.get rs (tfCfg.getD "_id") = some (BValue.str sv)) :
    (FetchCollection true tfCfg (pre ++ rs :: post) now oracle).err =
        some RunError.stringTsField ∧
    (FetchCollection true tfCfg (pre ++ rs :: post) now oracle).pushed = pre ∧
    (FetchCollection true tfCfg (pre ++ rs :: post) now oracle).savedMarker = none ∧
    applyRun marker (FetchCollection true tfCfg (pre ++ rs :: post) now oracle) = marker := by
  obtain ⟨st', hrun, hpush⟩ := runRecords_dated (tfCfg.getD "_id") now oracle pre initState hpre
  have hclass : classifyTs (Record.get rs (tfCfg.getD "_id")) = TsClass.strCase sv := by
    rw [hs]
    rfl
  have hall : runRecords true (tfCfg.getD "_id") now oracle (pre ++ rs :: post) initState =
      ({ st' with core := { st'.core with
          last_id := if st'.core.record_count = 0 then Record.get rs "_id" else st'.core.last_id
          record_count := st'.core.record_count + 1 } }, some RunError.stringTsField) := by
    rw [runRecords_append_ok true (tfCfg.getD "_id") now oracle pre (rs :: post)
        initState st' hrun]
    rw [runRecords_cons, step_string (tfCfg.getD "_id") now oracle st' rs sv hclass]
  have hout := fetch_of_err true tfCfg (pre ++ rs :: post) now oracle (tfCfg.getD "_id")
    _ _ (resolveTsField_true tfCfg) hall
  rw [hout]
  refine ⟨rfl, ?_, rfl, rfl⟩
  simpa using hpush

/-- Witness for C2: one good record, then a string-valued record. -/
theorem C2_string_abort_witness :
    (FetchCollection true none
        ([[(("_id" : String), BValue.datetime 10)]] ++
          [(("_id" : String), BValue.str "oops")] :: []) 0 (fun _ => "")).err =
        some RunError.stringTsField ∧
    (FetchCollection true none
        ([[(("_id" : String), BValue.datetime 10)]] ++
          [(("_id" : String), BValue.str "oops")] :: []) 0 (fun _ => "")).pushed =
        [[(("_id" : String), BValue.datetime 10)]] ∧
    (FetchCollection true none
        ([[(("_id" : String), BValue.datetime 10)]] ++
          [(("_id" : String), BValue.str "oops")] :: []) 0 (fun _ => "")).savedMarker = none ∧
    applyRun (some ("_id", BValue.int 5))
        (FetchCollection true none
          ([[(("_id" : String), BValue.datetime 10)]] ++
            [(("_id" : String), BValue.str "oops")] :: []) 0 (fun _ => "")) =
        some ("_id", BValue.int 5) :=
  C2_string_abort none 0 (fun _ => "") [[("_id", BValue.datetime 10)]] []
    [("_id", BValue.str "oops")] "oops" (some ("_id", BValue.int 5))
    (by
      intro r hr
      rw [List.mem_singleton] at hr
      subst hr
      exact ⟨0, by decide⟩)
    (by decide)

theorem markerLe_refl (m : Option (String × BValue)) : markerLe m m := by
  cases m with
  | none => trivial
  | some p =>
    obtain ⟨fk, v⟩ := p
    exact ⟨rfl, Or.inr rfl⟩

theorem nextMarker_mono (useTs : Bool) (tfCfg : Option String) (now : Nat)
    (oracle : Nat → String) (m : Option (String × BValue)) (recs : List Record)
    (h0 : markerIdShaped m) (hf : filterHolds m recs) :
    markerLe m (nextMarker useTs tfCfg now oracle m recs) ∧
    markerIdShaped (nextMarker useTs tfCfg now oracle m recs) := by
  unfold nextMarker applyRun
  cases hS : (FetchCollection useTs tfCfg recs now oracle).savedMarker with
  | none => exact ⟨markerLe_refl m, h0⟩
  | some p =>
    obtain ⟨fn, w⟩ := p
    obtain ⟨hfn, r, hr, hrv⟩ := savedMarker_spec useTs tfCfg recs now oracle fn w hS
    subst hfn
    refine ⟨?_, rfl⟩
    cases m with
    | none => trivial
    | some q =>
      obtain ⟨fk, v⟩ := q
      have hfk : fk = "_id" := h0
      subst hfk
      obtain ⟨u, hu, hlt⟩ := hf r hr "_id" v rfl
      have huw : u = w := by
        rw [hrv] at hu
        exact (Option.some.injEq _ _).mp hu.symm
      exact ⟨rfl, Or.inl (by rw [← huw]; exact hlt)⟩

theorem chain_markers_aux (useTs : Bool) (tfCfg : Option String) (now : Nat)
    (oracle : Nat → String) (m : Option (String × BValue))
    (runs : List (List Record))
    (hs : SourceHonest useTs tfCfg now oracle m runs) :
    markerIdShaped m →
    List.Chain' markerLe (runsMarkers useTs tfCfg now oracle m runs) := by
  induction hs with
  | nil m' =>
    intro h0
    simp [runsMarkers]
  | cons m' recs rest hf hrest ih =>
    intro h0
    obtain ⟨hle, hshape⟩ := nextMarker_mono useTs tfCfg now oracle m' recs h0 hf
    have hchain := ih hshape
    have hsplit : runsMarkers useTs tfCfg now oracle m' (recs :: rest) =
        m' :: runsMarkers useTs tfCfg now oracle
          (nextMarker useTs tfCfg now oracle m' recs) rest := rfl
    rw [hsplit]
    cases rest with
    | nil => exact List.chain'_pair.mpr hle
    | cons rr rest' => exact List.Chain'.cons hle hchain

/-- Claim C3 — over any sequence of runs in which the source honours the
greater-than filter of the stream's current watermark, the persisted
watermark (starting absent or keyed by `"_id"` as this engine persists it)
is non-decreasing from run to run: it keeps its field name and its value
never goes down in the BSON order, and it never reverts to absent. -/
theorem C3_watermark_monotone (useTs : Bool) (tfCfg : Option String) (now : Nat)
    (oracle : Nat → String) (m0 : Option (String × BValue))
    (runs : List (List Record))
    (h0 : markerIdShaped m0)
    (hs : SourceHonest useTs tfCfg now oracle m0 runs) :
    List.Chain' markerLe (runsMarkers useTs tfCfg now oracle m0 runs) :=
  chain_markers_aux useTs tfCfg now oracle m0 runs hs h0

/-- Witness for C3: a first run from an absent watermark. -/
theorem C3_watermark_monotone_witness :
    List.Chain' markerLe (runsMarkers true none 0 (fun _ => "") none
      [[[(("_id" : String), BValue.int 1)]]]) :=
  C3_watermark_monotone true none 0 (fun _ => "") none
    [[[("_id", BValue.int 1)]]] trivial
    (SourceHonest.cons none [[("_id", BValue.int 1)]] []
      (by
        intro r hr fk fv hm
        exact Option.noConfusion hm)
      (SourceHonest.nil _))


/-- The loop state after a prefix of well-formed dated records: a helper to
write the intermediate states of a bucketed run compactly. -/
def midState (lastId : Option BValue) (ld : Nat) (n : Nat) (ob : List Record)
    (ops : List (Option Int)) (cms : List (List Record)) (cc : Nat)
    (ps : List Record) (lg : List String) : LoopState :=
  { core := { last_id := lastId, last_date := some ld, record_count := n,
              openBatch := some ob, opensAcc := ops, commitsAcc := cms,
              commitCount := cc, pushedAcc := ps },
    logAcc := lg }

/-- Claim C4 — with time-bucketing active, six well-formed records whose
watermark fields derive the bucket keys day1, day1, day2, day2, day2, day3
(adjacent keys distinct) yield exactly three opened sink sessions and
exactly three commits, each commit holding exactly its own bucket's records
in their original relative order. -/
theorem C4_bucket_commits (tfCfg : Option String) (now : Nat) (oracle : Nat → String)
    (r1 r2 r3 r4 r5 r6 : Record) (d1 d2 d3 : Nat)
    (h1 : classifyTs (Record.get r1 (tfCfg.getD "_id")) = TsClass.dated d1)
    (h2 : classifyTs (Record.get r2 (tfCfg.getD "_id")) = TsClass.dated d1)
    (h3 : classifyTs (Record.get r3 (tfCfg.getD "_id")) = TsClass.dated d2)
    (h4 : classifyTs (Record.get r4 (tfCfg.getD "_id")) = TsClass.dated d2)
    (h5 : classifyTs (Record.get r5 (tfCfg.getD "_id")) = TsClass.dated d2)
    (h6 : classifyTs (Record.get r6 (tfCfg.getD "_id")) = TsClass.dated d3)
    (h12 : d1 ≠ d2) (h23 : d2 ≠ d3) :
    (FetchCollection true tfCfg [r1, r2, r3, r4, r5, r6] now oracle).opens.length = 3 ∧
    (FetchCollection true tfCfg [r1, r2, r3, r4, r5, r6] now oracle).commits =
      [[r1, r2], [r3, r4, r5], [r6]] ∧
    (FetchCollection true tfCfg [r1, r2, r3, r4, r5, r6] now oracle).err = none := by
  have h21 : ¬ (d2 = d1) := fun h => h12 h.symm
  have h32 : ¬ (d3 = d2) := fun h => h23 h.symm
  have s1 : step true (tfCfg.getD "_id") now oracle initState r1 = Except.ok
      (midState (Record.get r1 "_id") d1 1 [r1]
        [some ((now : Int) - (d1 : Int) * 86400)] [] 0 [r1] []) := by
    rw [step_dated (tfCfg.getD "_id") now oracle initState r1 d1 h1]
    simp [afterClassify, queueRecord, initState, midState]
  have s2 : step true (tfCfg.getD "_id") now oracle
      (midState (Record.get r1 "_id") d1 1 [r1]
        [some ((now : Int) - (d1 : Int) * 86400)] [] 0 [r1] []) r2 = Except.ok
      (midState (Record.get r1 "_id") d1 2 [r1, r2]
        [some ((now : Int) - (d1 : Int) * 86400)] [] 0 [r1, r2] []) := by
    rw [step_dated (tfCfg.getD "_id") now oracle _ r2 d1 h2]
    simp [afterClassify, queueRecord, midState]
  have s3 : step true (tfCfg.getD "_id") now oracle
      (midState (Record.get r1 "_id") d1 2 [r1, r2]
        [some ((now : Int) - (d1 : Int) * 86400)] [] 0 [r1, r2] []) r3 = Except.ok
      (midState (Record.get r1 "_id") d2 3 [r3]
        [some ((now : Int) - (d1 : Int) * 86400),
         some ((now : Int) - (d2 : Int) * 86400)]
        [[r1, r2]] 1 [r1, r2, r3] [oracle 0]) := by
    rw [step_dated (tfCfg.getD "_id") now oracle _ r3 d2 h3]
    simp [afterClassify, queueRecord, commitClose, midState, h21]
  have s4 : step true (tfCfg.getD "_id") now oracle
      (midState (Record.get r1 "_id") d2 3 [r3]
        [some ((now : Int) - (d1 : Int) * 86400),
         some ((now : Int) - (d2 : Int) * 86400)]
        [[r1, r2]] 1 [r1, r2, r3] [oracle 0]) r4 = Except.ok
      (midState (Record.get r1 "_id") d2 4 [r3, r4]
        [some ((now : Int) - (d1 : Int) * 86400),
         some ((now : Int) - (d2 : Int) * 86400)]
        [[r1, r2]] 1 [r1, r2, r3, r4] [oracle 0]) := by
    rw [step_dated (tfCfg.getD "_id") now oracle _ r4 d2 h4]
    simp [afterClassify, queueRecord, midState]
  have s5 : step true (tfCfg.getD "_id") now oracle
      (midState (Record.get r1 "_id") d2 4 [r3, r4]
        [some ((now : Int) - (d1 : Int) * 86400),
         some ((now : Int) - (d2 : Int) * 86400)]
        [[r1, r2]] 1 [r1, r2, r3, r4] [oracle 0]) r5 = Except.ok
      (midState (Record.get r1 "_id") d2 5 [r3, r4, r5]
        [some ((now : Int) - (d1 : Int) * 86400),
         some ((now : Int) - (d2 : Int) * 86400)]
        [[r1, r2]] 1 [r1, r2, r3, r4, r5] [oracle 0]) := by
    rw [step_dated (tfCfg.getD "_id") now oracle _ r5 d2 h5]
    simp [afterClassify, queueRecord, midState]
  have s6 : step true (tfCfg.getD "_id") now oracle
      (midState (Record.get r1 "_id") d2 5 [r3, r4, r5]
        [some ((now : Int) - (d1 : Int) * 86400),
         some ((now : Int) - (d2 : Int) * 86400)]
        [[r1, r2]] 1 [r1, r2, r3, r4, r5] [oracle 0]) r6 = Except.ok
      (midState (Record.get r1 "_id") d3 6 [r6]
        [some ((now : Int) - (d1 : Int) * 86400),
         some ((now : Int) - (d2 : Int) * 86400),
         some ((now : Int) - (d3 : Int) * 86400)]
        [[r1, r2], [r3, r4, r5]] 2 [r1, r2, r3, r4, r5, r6]
        [oracle 0, oracle 1]) := by
    rw [step_dated (tfCfg.getD "_id") now oracle _ r6 d3 h6]
    simp [afterClassify, queueRecord, commitClose, midState, h32]
  have hrun : runRecords true (tfCfg.getD "_id") now oracle [r1, r2, r3, r4, r5, r6]
      initState =
      (midState (Record.get r1 "_id") d3 6 [r6]
        [some ((now : Int) - (d1 : Int) * 86400),
         some ((now : Int) - (d2 : Int) * 86400),
         some ((now : Int) - (d3 : Int) * 86400)]
        [[r1, r2], [r3, r4, r5]] 2 [r1, r2, r3, r4, r5, r6]
        [oracle 0, oracle 1], none) := by
    rw [runRecords_cons, s1]
    dsimp only
    rw [runRecords_cons, s2]
    dsimp only
    rw [runRecords_cons, s3]
    dsimp only
    rw [runRecords_cons, s4]
    dsimp only
    rw [runRecords_cons, s5]
    dsimp only
    rw [runRecords_cons, s6]
    rfl
  have hout := fetch_of_ok_open true tfCfg [r1, r2, r3, r4, r5, r6] now oracle
    (tfCfg.getD "_id") _ [r6] (resolveTsField_true tfCfg) hrun rfl
  rw [hout]
  exact ⟨rfl, rfl, rfl⟩

/-- Witness for C4: datetimes on days 0, 0, 1, 1, 1, 2. -/
theorem C4_bucket_commits_witness :
    (FetchCollection true none
      [[(("_id" : String), BValue.datetime 10)], [(("_id" : String), BValue.datetime 20)],
       [(("_id" : String), BValue.datetime 86400)], [(("_id" : String), BValue.datetime 86401)],
       [(("_id" : String), BValue.datetime 86402)], [(("_id" : String), BValue.datetime 172800)]]
      200000 (fun _ => "ok")).opens.length = 3 ∧
    (FetchCollection true none
      [[(("_id" : String), BValue.datetime 10)], [(("_id" : String), BValue.datetime 20)],
       [(("_id" : String), BValue.datetime 86400)], [(("_id" : String), BValue.datetime 86401)],
       [(("_id" : String), BValue.datetime 86402)], [(("_id" : String), BValue.datetime 172800)]]
      200000 (fun _ => "ok")).commits =
      [[[(("_id" : String), BValue.datetime 10)], [(("_id" : String), BValue.datetime 20)]],
       [[(("_id" : String), BValue.datetime 86400)], [(("_id" : String), BValue.datetime 86401)],
        [(("_id" : String), BValue.datetime 86402)]],
       [[(("_id" : String), BValue.datetime 172800)]]] ∧
    (FetchCollection true none
      [[(("_id" : String), BValue.datetime 10)], [(("_id" : String), BValue.datetime 20)],
       [(("_id" : String), BValue.datetime 86400)], [(("_id" : String), BValue.datetime 86401)],
       [(("_id" : String), BValue.datetime 86402)], [(("_id" : String), BValue.datetime 172800)]]
      200000 (fun _ => "ok")).err = none :=
  C4_bucket_commits none 200000 (fun _ => "ok")
    [("_id", BValue.datetime 10)] [("_id", BValue.datetime 20)]
    [("_id", BValue.datetime 86400)] [("_id", BValue.datetime 86401)]
    [("_id", BValue.datetime 86402)] [("_id", BValue.datetime 172800)]
    0 1 2 (by decide) (by decide) (by decide) (by decide) (by decide) (by decide)
    (by decide) (by decide)

/-- Keep only the oracle-independent part of an iteration's result. -/
def exCore : Except (LoopState × RunError) LoopState → Except (LoopCore × RunError) LoopCore
  | Except.ok st => Except.ok st.core
  | Except.error (st, e) => Except.error (st.core, e)

theorem afterClassify_core_eq (o1 o2 : Nat → String) (now : Nat) (c : LoopCore)
    (l1 l2 : List String) (r : Record) (td : Option Nat) :
    exCore (afterClassify o1 now ⟨c, l1⟩ r td) =
      exCore (afterClassify o2 now ⟨c, l2⟩ r td) := by
  unfold afterClassify
  dsimp only
  by_cases hb : c.last_date ≠ none ∧ td ≠ c.last_date
  · rw [if_pos hb, if_pos hb]
    simp only [commitClose_openBatch]
    cases td <;> simp [exCore, commitClose, queueRecord]
  · rw [if_neg hb, if_neg hb]
    cases hOB : c.openBatch <;> cases td <;> simp [exCore, queueRecord]

theorem step_core_eq (u : Bool) (f : String) (now : Nat) (o1 o2 : Nat → String)
    (c : LoopCore) (l1 l2 : List String) (r : Record) :
    exCore (step u f now o1 ⟨c, l1⟩ r) = exCore (step u f now o2 ⟨c, l2⟩ r) := by
  unfold step
  dsimp only
  cases u with
  | false =>
    simp only [Bool.false_eq_true, if_false]
    unfold plainStep
    dsimp only
    by_cases hOB : c.openBatch = none
    · rw [if_pos hOB, if_pos hOB]
      simp [exCore, queueRecord]
    · rw [if_neg hOB, if_neg hOB]
      simp [exCore, queueRecord]
  | true =>
    simp only [if_true]
    cases hc : classifyTs (Record.get r f) with
    | dated d => exact afterClassify_core_eq o1 o2 now _ l1 l2 r (some d)
    | strCase s => simp [exCore]
    | undated => exact afterClassify_core_eq o1 o2 now _ l1 l2 r none

theorem runRecords_core_eq (u : Bool) (f : String) (now : Nat) (o1 o2 : Nat → String) :
    ∀ (recs : List Record) (c : LoopCore) (l1 l2 : List String),
      (runRecords u f now o1 recs ⟨c, l1⟩).1.core =
        (runRecords u f now o2 recs ⟨c, l2⟩).1.core ∧
      (runRecords u f now o1 recs ⟨c, l1⟩).2 = (runRecords u f now o2 recs ⟨c, l2⟩).2
  | [], c, l1, l2 => ⟨rfl, rfl⟩
  | r :: rest, c, l1, l2 => by
    have hse := step_core_eq u f now o1 o2 c l1 l2 r
    rw [runRecords_cons, runRecords_cons]
    cases h1 : step u f now o1 ⟨c, l1⟩ r with
    | ok st1 =>
      cases h2 : step u f now o2 ⟨c, l2⟩ r with
      | ok st2 =>
        obtain ⟨c1, lg1⟩ := st1
        obtain ⟨c2, lg2⟩ := st2
        rw [h1, h2] at hse
        simp only [exCore, Except.ok.injEq] at hse
        subst hse
        exact runRecords_core_eq u f now o1 o2 rest c1 lg1 lg2
      | error p2 =>
        rw [h1, h2] at hse
        obtain ⟨st2', e2⟩ := p2
        simp [exCore] at hse
    | error p1 =>
      cases h2 : step u f now o2 ⟨c, l2⟩ r with
      | ok st2 =>
        rw [h1, h2] at hse
        obtain ⟨st1', e1⟩ := p1
        simp [exCore] at hse
      | error p2 =>
        obtain ⟨st1', e1⟩ := p1
        obtain ⟨st2', e2⟩ := p2
        obtain ⟨c1, lg1⟩ := st1'
        obtain ⟨c2, lg2⟩ := st2'
        rw [h1, h2] at hse
        simp only [exCore, Except.error.injEq, Prod.mk.injEq] at hse
        obtain ⟨hc12, he12⟩ := hse
        dsimp only
        exact ⟨hc12, by rw [he12]⟩

/-- Claim C6 — the server's commit results have no influence on the run:
for any two result oracles, a run over the same records pushes the same
records, opens the same sessions, commits the same batches, fails (or not)
identically, and persists exactly the same watermark; commit results are
only logged, never retried, and never block the watermark update. -/
theorem C6_commit_result_independent (useTs : Bool) (tfCfg : Option String)
    (records : List Record) (now : Nat) (o1 o2 : Nat → String)
    (_h : records ≠ []) :
    (FetchCollection useTs tfCfg records now o1).savedMarker =
      (FetchCollection useTs tfCfg records now o2).savedMarker ∧
    (FetchCollection useTs tfCfg records now o1).pushed =
      (FetchCollection useTs tfCfg records now o2).pushed ∧
    (FetchCollection useTs tfCfg records now o1).commits =
      (FetchCollection useTs tfCfg records now o2).commits ∧
    (FetchCollection useTs tfCfg records now o1).opens =
      (FetchCollection useTs tfCfg records now o2).opens ∧
    (FetchCollection useTs tfCfg records now o1).err =
      (FetchCollection useTs tfCfg records now o2).err := by
  unfold FetchCollection
  cases hf : resolveTsField useTs tfCfg with
  | none => exact ⟨rfl, rfl, rfl, rfl, rfl⟩
  | some f =>
    dsimp only
    obtain ⟨hcore, herr⟩ := runRecords_core_eq useTs f now o1 o2 records
      initState.core initState.logAcc initState.logAcc
    cases hr1 : runRecords useTs f now o1 records initState with
    | mk st1 e1 =>
      cases hr2 : runRecords useTs f now o2 records initState with
      | mk st2 e2 =>
        rw [hr1, hr2] at hcore herr
        dsimp only at hcore herr
        subst herr
        cases e1 with
        | some e =>
          dsimp only
          rw [← hcore]
          exact ⟨rfl, rfl, rfl, rfl, rfl⟩
        | none =>
          dsimp only
          rw [← hcore]
          cases hOB : st1.core.openBatch <;> exact ⟨rfl, rfl, rfl, rfl, rfl⟩

/-- Witness for C6 at two different oracles over one record. -/
theorem C6_commit_result_independent_witness :
    (FetchCollection false (some "f") [[(("_id" : String), BValue.int 1)]] 0
        (fun _ => "a")).savedMarker =
      (FetchCollection false (some "f") [[(("_id" : String), BValue.int 1)]] 0
        (fun _ => "b")).savedMarker ∧
    (FetchCollection false (some "f") [[(("_id" : String), BValue.int 1)]] 0
        (fun _ => "a")).pushed =
      (FetchCollection false (some "f") [[(("_id" : String), BValue.int 1)]] 0
        (fun _ => "b")).pushed ∧
    (FetchCollection false (some "f") [[(("_id" : String), BValue.int 1)]] 0
        (fun _ => "a")).commits =
      (FetchCollection false (some "f") [[(("_id" : String), BValue.int 1)]] 0
        (fun _ => "b")).commits ∧
    (FetchCollection false (some "f") [[(("_id" : String), BValue.int 1)]] 0
        (fun _ => "a")).opens =
      (FetchCollection false (some "f") [[(("_id" : String), BValue.int 1)]] 0
        (fun _ => "b")).opens ∧
    (FetchCollection false (some "f") [[(("_id" : String), BValue.int 1)]] 0
        (fun _ => "a")).err =
      (FetchCollection false (some "f") [[(("_id" : String), BValue.int 1)]] 0
        (fun _ => "b")).err :=
  C6_commit_result_independent false (some "f") [[("_id", BValue.int 1)]] 0
    (fun _ => "a") (fun _ => "b") (by decide)

theorem pickle_roundtrip (v : BValue) : pickleLoads (pickleDumps v) = some v := by
  cases v with
  | objectId t r => rfl
  | datetime s => rfl
  | str s =>
    obtain ⟨data⟩ := s
    simp only [pickleDumps, pickleLoads, List.map_map, String.toList]
    rw [show Char.ofNat ∘ Char.toNat = id from funext fun c => Char.ofNat_toNat c,
      List.map_id]
  | int i =>
    by_cases hi : i < 0
    · simp only [pickleDumps, if_pos hi, pickleLoads, Option.some.injEq, BValue.int.injEq]
      omega
    · simp only [pickleDumps, if_neg hi, pickleLoads, Option.some.injEq, BValue.int.injEq]
      omega

theorem dbPut_establishes (rows : CacheDB) (k fn : String) (blob : List Nat) :
    (∃ e ∈ dbPut rows k fn blob, e.1 = k) ∧
    (∀ e ∈ dbPut rows k fn blob, e.1 = k → e = (k, fn, blob)) := by
  unfold dbPut
  by_cases hk : rows.any (fun e => e.1 == k) = true
  · rw [if_pos hk]
    constructor
    · obtain ⟨e, he, hek⟩ := List.any_eq_true.mp hk
      exact ⟨(k, fn, blob), List.mem_map.mpr ⟨e, he, by rw [if_pos hek]⟩, rfl⟩
    · intro e he hek
      obtain ⟨e0, he0, heq⟩ := List.mem_map.mp he
      by_cases h0 : (e0.1 == k) = true
      · rw [if_pos h0] at heq
        exact heq.symm
      · rw [if_neg h0] at heq
        subst heq
        exact absurd (beq_iff_eq.mpr hek) h0
  · rw [if_neg hk]
    constructor
    · exact ⟨(k, fn, blob), List.mem_append_right _ (by simp), rfl⟩
    · intro e he hek
      rcases List.mem_append.mp he with h | h
      · have hany : rows.any (fun e => e.1 == k) = true :=
          List.any_eq_true.mpr ⟨e, h, beq_iff_eq.mpr hek⟩
        exact absurd hany hk
      · rw [List.mem_singleton] at h
        exact h

theorem dbPut_preserves (rows : CacheDB) (k fn : String) (blob : List Nat)
    (name fnv : String) (blobv : List Nat) (hne : k ≠ name)
    (hex : ∃ e ∈ rows, e.1 = name)
    (hall : ∀ e ∈ rows, e.1 = name → e = (name, fnv, blobv)) :
    (∃ e ∈ dbPut rows k fn blob, e.1 = name) ∧
    (∀ e ∈ dbPut rows k fn blob, e.1 = name → e = (name, fnv, blobv)) := by
  unfold dbPut
  by_cases hk : rows.any (fun e => e.1 == k) = true
  · rw [if_pos hk]
    constructor
    · obtain ⟨e, he, hek⟩ := hex
      refine ⟨e, List.mem_map.mpr ⟨e, he, ?_⟩, hek⟩
      rw [if_neg ?_]
      rw [beq_iff_eq, hek]
      exact fun h => hne h.symm
    · intro e he hename
      obtain ⟨e0, he0, heq⟩ := List.mem_map.mp he
      by_cases h0 : (e0.1 == k) = true
      · rw [if_pos h0] at heq
        rw [← heq] at hename
        exact absurd hename hne
      · rw [if_neg h0] at heq
        subst heq
        exact hall e0 he0 hename
  · rw [if_neg hk]
    constructor
    · obtain ⟨e, he, hek⟩ := hex
      exact ⟨e, List.mem_append_left _ he, hek⟩
    · intro e he hename
      rcases List.mem_append.mp he with h | h
      · exact hall e h hename
      · rw [List.mem_singleton] at h
        subst h
        exact absurd hename hne

theorem dbPut_decodable (rows : CacheDB) (k fn : String) (blob : List Nat)
    (hrows : ∀ e ∈ rows, (pickleLoads e.2.2).isSome = true)
    (hblob : (pickleLoads blob).isSome = true) :
    ∀ e ∈ dbPut rows k fn blob, (pickleLoads e.2.2).isSome = true := by
  intro e he
  unfold dbPut at he
  by_cases hk : rows.any (fun e => e.1 == k) = true
  · rw [if_pos hk] at he
    obtain ⟨e0, he0, heq⟩ := List.mem_map.mp he
    by_cases h0 : (e0.1 == k) = true
    · rw [if_pos h0] at heq
      rw [← heq]
      exact hblob
    · rw [if_neg h0] at heq
      rw [← heq]
      exact hrows e0 he0
  · rw [if_neg hk] at he
    rcases List.mem_append.mp he with h | h
    · exact hrows e h
    · rw [List.mem_singleton] at h
      subst h
      exact hblob

theorem saveHistory_cons (e : String × String × BValue) (rest : HistMap) (rows : CacheDB) :
    saveHistory (e :: rest) rows =
      saveHistory rest (dbPut rows e.1 e.2.1 (pickleDumps e.2.2)) := rfl

theorem saveHistory_keeps (name fnv : String) (fv : BValue) :
    ∀ (hist : HistMap) (rows : CacheDB),
      (∀ e ∈ hist, e.1 = name → e.2 = (fnv, fv)) →
      (∃ e ∈ rows, e.1 = name) →
      (∀ e ∈ rows, e.1 = name → e = (name, fnv, pickleDumps fv)) →
      (∃ e ∈ saveHistory hist rows, e.1 = name) ∧
      (∀ e ∈ saveHistory hist rows, e.1 = name → e = (name, fnv, pickleDumps fv))
  | [], rows, _, hex, hall => ⟨hex, hall⟩
  | e0 :: rest, rows, hh, hex, hall => by
    obtain ⟨k0, fn0, fv0⟩ := e0
    rw [saveHistory_cons]
    by_cases h0 : k0 = name
    · have hv : (fn0, fv0) = (fnv, fv) :=
        hh (k0, fn0, fv0) (List.mem_cons_self _ _) h0
      obtain ⟨hv1, hv2⟩ := Prod.mk.injEq fn0 fv0 fnv fv |>.mp hv
      subst h0
      subst hv1
      subst hv2
      have hest := dbPut_establishes rows k0 fn0 (pickleDumps fv0)
      exact saveHistory_keeps k0 fn0 fv0 rest _
        (fun e he hn => hh e (List.mem_cons_of_mem _ he) hn) hest.1 hest.2
    · have hpre := dbPut_preserves rows k0 fn0 (pickleDumps fv0)
        name fnv (pickleDumps fv) h0 hex hall
      exact saveHistory_keeps name fnv fv rest _
        (fun e he hn => hh e (List.mem_cons_of_mem _ he) hn) hpre.1 hpre.2

theorem saveHistory_establishes (name fnv : String) (fv : BValue) :
    ∀ (hist : HistMap) (rows : CacheDB),
      (∀ e ∈ hist, e.1 = name → e.2 = (fnv, fv)) →
      (∃ e ∈ hist, e.1 = name) →
      (∃ e ∈ saveHistory hist rows, e.1 = name) ∧
      (∀ e ∈ saveHistory hist rows, e.1 = name → e = (name, fnv, pickleDumps fv))
  | [], _, _, hex => absurd hex (by simp)
  | e0 :: rest, rows, hh, hex => by
    obtain ⟨k0, fn0, fv0⟩ := e0
    rw [saveHistory_cons]
    by_cases h0 : k0 = name
    · have hv : (fn0, fv0) = (fnv, fv) :=
        hh (k0, fn0, fv0) (List.mem_cons_self _ _) h0
      obtain ⟨hv1, hv2⟩ := Prod.mk.injEq fn0 fv0 fnv fv |>.mp hv
      subst h0
      subst hv1
      subst hv2
      have hest := dbPut_establishes rows k0 fn0 (pickleDumps fv0)
      exact saveHistory_keeps k0 fn0 fv0 rest _
        (fun e he hn => hh e (List.mem_cons_of_mem _ he) hn) hest.1 hest.2
    · have hex' : ∃ e ∈ rest, e.1 = name := by
        obtain ⟨e, he, hen⟩ := hex
        rcases List.mem_cons.mp he with rfl | he'
        · exact absurd hen h0
        · exact ⟨e, he', hen⟩
      exact saveHistory_establishes name fnv fv rest _
        (fun e he hn => hh e (List.mem_cons_of_mem _ he) hn) hex'

theorem saveHistory_decodable :
    ∀ (hist : HistMap) (rows : CacheDB),
      (∀ e ∈ rows, (pickleLoads e.2.2).isSome = true) →
      ∀ e ∈ saveHistory hist rows, (pickleLoads e.2.2).isSome = true
  | [], _, hrows => hrows
  | e0 :: rest, rows, hrows => by
    rw [saveHistory_cons]
    exact saveHistory_decodable rest _
      (dbPut_decodable rows e0.1 e0.2.1 (pickleDumps e0.2.2) hrows
        (by rw [pickle_roundtrip]; rfl))

theorem histGet_histPut_same (h : HistMap) (k fn : String) (fv : BValue) :
    histGet (histPut h k fn fv) k = some (fn, fv) := by
  unfold histPut histGet
  by_cases hk : h.any (fun e => e.1 == k) = true
  · rw [if_pos hk, List.find?_map]
    have hpf : ((fun (e : String × String × BValue) => e.1 == k) ∘
        (fun e => if e.1 == k then (k, fn, fv) else e)) =
        (fun (e : String × String × BValue) => e.1 == k) := by
      funext e
      by_cases he : (e.1 == k) = true
      · simp [Function.comp, he]
      · simp [Function.comp, he]
    rw [hpf]
    obtain ⟨e0, he0, hp0⟩ := List.any_eq_true.mp hk
    have hsome : (h.find? (fun e => e.1 == k)).isSome = true :=
      List.find?_isSome.mpr ⟨e0, he0, hp0⟩
    obtain ⟨e1, he1⟩ := Option.isSome_iff_exists.mp hsome
    have hp1' := List.find?_some he1
    have hp1 : (e1.1 == k) = true := hp1'
    have heq1 : e1.1 = k := beq_iff_eq.mp hp1
    rw [he1]
    simp [hp1, heq1]
  · rw [if_neg hk, List.find?_append]
    have hnone : h.find? (fun e => e.1 == k) = none := by
      rw [List.find?_eq_none]
      intro e he hp
      exact hk (List.any_eq_true.mpr ⟨e, he, hp⟩)
    rw [hnone]
    simp

theorem histGet_histPut_other (h : HistMap) (k fn : String) (fv : BValue)
    (k' : String) (hne : k' ≠ k) :
    histGet (histPut h k fn fv) k' = histGet h k' := by
  unfold histPut histGet
  by_cases hk : h.any (fun e => e.1 == k) = true
  · rw [if_pos hk, List.find?_map]
    have hpf : ((fun (e : String × String × BValue) => e.1 == k') ∘
        (fun e => if e.1 == k then (k, fn, fv) else e)) =
        (fun (e : String × String × BValue) => e.1 == k') := by
      funext e
      by_cases he : (e.1 == k) = true
      · have he' : e.1 = k := beq_iff_eq.mp he
        simp [Function.comp, he, he']
      · simp [Function.comp, he]
    rw [hpf]
    cases hf : h.find? (fun e => e.1 == k') with
    | none => rfl
    | some e1 =>
      have hp1' := List.find?_some hf
      have hp1 : (e1.1 == k') = true := hp1'
      have hk1 : (e1.1 == k) = false := by
        rw [beq_iff_eq.mp hp1]
        exact beq_eq_false_iff_ne.mpr hne
      have hne1 : ¬ e1.1 = k := beq_eq_false_iff_ne.mp hk1
      simp [hk1, hne1]
  · rw [if_neg hk, List.find?_append]
    have hlast : List.find? (fun (e : String × String × BValue) => e.1 == k')
        [(k, fn, fv)] = none := by
      simp
      exact fun hh => hne hh.symm
    rw [hlast]
    simp

/-- The load fold of `SessionHistory.load` with an explicit accumulator. -/
def loadFold (rows : CacheDB) (h0 : HistMap) : Option HistMap :=
  rows.foldlM (fun h e => (pickleLoads e.2.2).map (fun fv => histPut h e.1 e.2.1 fv)) h0

theorem loadHistory_eq_loadFold (rows : CacheDB) :
    loadHistory rows = loadFold rows [] := rfl

theorem loadFold_cons (e : String × String × List Nat) (rows : CacheDB)
    (h0 : HistMap) (v : BValue) (hdec : pickleLoads e.2.2 = some v) :
    loadFold (e :: rows) h0 = loadFold rows (histPut h0 e.1 e.2.1 v) := by
  unfold loadFold
  rw [List.foldlM_cons, hdec]
  rfl

theorem loadFold_pres (name fnv : String) (fv : BValue) :
    ∀ (rows : CacheDB) (h0 : HistMap),
      (∀ e ∈ rows, (pickleLoads e.2.2).isSome = true) →
      (∀ e ∈ rows, e.1 = name → e = (name, fnv, pickleDumps fv)) →
      histGet h0 name = some (fnv, fv) →
      ∃ h', loadFold rows h0 = some h' ∧ histGet h' name = some (fnv, fv)
  | [], h0, _, _, hget => ⟨h0, rfl, hget⟩
  | e :: rest, h0, hdec, hall, hget => by
    obtain ⟨k0, fn0, blob0⟩ := e
    obtain ⟨v, hv0⟩ :=
      Option.isSome_iff_exists.mp (hdec (k0, fn0, blob0) (List.mem_cons_self _ _))
    have hv' : pickleLoads blob0 = some v := hv0
    rw [loadFold_cons (k0, fn0, blob0) rest h0 v hv']
    by_cases h0e : k0 = name
    · have he := hall (k0, fn0, blob0) (List.mem_cons_self _ _) h0e
      obtain ⟨hk, hrest⟩ :=
        Prod.mk.injEq k0 (fn0, blob0) name (fnv, pickleDumps fv) |>.mp he
      obtain ⟨hfn, hblob⟩ :=
        Prod.mk.injEq fn0 blob0 fnv (pickleDumps fv) |>.mp hrest
      subst hk
      subst hfn
      subst hblob
      have hvfv : v = fv := by
        rw [pickle_roundtrip] at hv'
        exact (Option.some.injEq _ _ |>.mp hv').symm
      subst hvfv
      exact loadFold_pres k0 fn0 v rest _
        (fun x hx => hdec x (List.mem_cons_of_mem _ hx))
        (fun x hx hn => hall x (List.mem_cons_of_mem _ hx) hn)
        (histGet_histPut_same h0 k0 fn0 v)
    · exact loadFold_pres name fnv fv rest _
        (fun x hx => hdec x (List.mem_cons_of_mem _ hx))
        (fun x hx hn => hall x (List.mem_cons_of_mem _ hx) hn)
        (by
          rw [histGet_histPut_other h0 k0 fn0 v name (fun hh => h0e hh.symm)]
          exact hget)

theorem loadFold_main (name fnv : String) (fv : BValue) :
    ∀ (rows : CacheDB) (h0 : HistMap),
      (∀ e ∈ rows, (pickleLoads e.2.2).isSome = true) →
      (∃ e ∈ rows, e.1 = name) →
      (∀ e ∈ rows, e.1 = name → e = (name, fnv, pickleDumps fv)) →
      ∃ h', loadFold rows h0 = some h' ∧ histGet h' name = some (fnv, fv)
  | [], _, _, hex, _ => absurd hex (by simp)
  | e :: rest, h0, hdec, hex, hall => by
    obtain ⟨k0, fn0, blob0⟩ := e
    obtain ⟨v, hv0⟩ :=
      Option.isSome_iff_exists.mp (hdec (k0, fn0, blob0) (List.mem_cons_self _ _))
    have hv' : pickleLoads blob0 = some v := hv0
    rw [loadFold_cons (k0, fn0, blob0) rest h0 v hv']
    by_cases h0e : k0 = name
    · have he := hall (k0, fn0, blob0) (List.mem_cons_self _ _) h0e
      obtain ⟨hk, hrest⟩ :=
        Prod.mk.injEq k0 (fn0, blob0) name (fnv, pickleDumps fv) |>.mp he
      obtain ⟨hfn, hblob⟩ :=
        Prod.mk.injEq fn0 blob0 fnv (pickleDumps fv) |>.mp hrest
      subst hk
      subst hfn
      subst hblob
      have hvfv : v = fv := by
        rw [pickle_roundtrip] at hv'
        exact (Option.some.injEq _ _ |>.mp hv').symm
      subst hvfv
      exact loadFold_pres k0 fn0 v rest _
        (fun x hx => hdec x (List.mem_cons_of_mem _ hx))
        (fun x hx hn => hall x (List.mem_cons_of_mem _ hx) hn)
        (histGet_histPut_same h0 k0 fn0 v)
    · have hex' : ∃ x ∈ rest, x.1 = name := by
        obtain ⟨x, hx, hxn⟩ := hex
        rcases List.mem_cons.mp hx with rfl | hx'
        · exact absurd hxn h0e
        · exact ⟨x, hx', hxn⟩
      exact loadFold_main name fnv fv rest _
        (fun x hx => hdec x (List.mem_cons_of_mem _ hx)) hex'
        (fun x hx hn => hall x (List.mem_cons_of_mem _ hx) hn)

theorem histPut_all_name (hist : HistMap) (name fn : String) (fv : BValue) :
    ∀ e ∈ histPut hist name fn fv, e.1 = name → e.2 = (fn, fv) := by
  intro e he hen
  unfold histPut at he
  by_cases hk : hist.any (fun x => x.1 == name) = true
  · rw [if_pos hk] at he
    obtain ⟨e0, he0, heq⟩ := List.mem_map.mp he
    by_cases h0 : (e0.1 == name) = true
    · rw [if_pos h0] at heq
      rw [← heq]
    · rw [if_neg h0] at heq
      subst heq
      exact absurd (beq_iff_eq.mpr hen) h0
  · rw [if_neg hk] at he
    rcases List.mem_append.mp he with h | h
    · have hany : hist.any (fun x => x.1 == name) = true :=
        List.any_eq_true.mpr ⟨e, h, beq_iff_eq.mpr hen⟩
      exact absurd hany hk
    · rw [List.mem_singleton] at h
      subst h
      rfl

theorem histPut_has_name (hist : HistMap) (name fn : String) (fv : BValue) :
    ∃ e ∈ histPut hist name fn fv, e.1 = name := by
  unfold histPut
  by_cases hk : hist.any (fun x => x.1 == name) = true
  · rw [if_pos hk]
    obtain ⟨e0, he0, h0⟩ := List.any_eq_true.mp hk
    exact ⟨(name, fn, fv), List.mem_map.mpr ⟨e0, he0, by rw [if_pos h0]⟩, rfl⟩
  · rw [if_neg hk]
    exact ⟨(name, fn, fv), List.mem_append_right _ (by simp), rfl⟩

/-- Claim C8 — for every stream name and (fieldName, fieldValue) watermark
pair, writing the pair into the history, saving it through the pickled
sqlite cache, and reconstructing a fresh store from that persisted state
(every pre-existing row being unpicklable-free) reads back exactly the same
type-tagged pair. -/
theorem C8_roundtrip_persistence (name fn : String) (fv : BValue)
    (hist : HistMap) (rows : CacheDB)
    (hdec : ∀ e ∈ rows, (pickleLoads e.2.2).isSome = true) :
    ∃ h', loadHistory (saveHistory (histPut hist name fn fv) rows) = some h' ∧
      histGet h' name = some (fn, fv) := by
  have hsave := saveHistory_establishes name fn fv (histPut hist name fn fv) rows
    (histPut_all_name hist name fn fv) (histPut_has_name hist name fn fv)
  have hdec' := saveHistory_decodable (histPut hist name fn fv) rows hdec
  rw [loadHistory_eq_loadFold]
  exact loadFold_main name fn fv (saveHistory (histPut hist name fn fv) rows) []
    hdec' hsave.1 hsave.2

/-- Witness for C8 on a fresh store. -/
theorem C8_roundtrip_persistence_witness :
    ∃ h', loadHistory (saveHistory (histPut [] "users" "created" (BValue.datetime 5)) []) =
        some h' ∧
      histGet h' "users" = some ("created", BValue.datetime 5) :=
  C8_roundtrip_persistence "users" "created" (BValue.datetime 5) [] []
    (by
      intro e he
      exact absurd he (List.not_mem_nil e))
